import Mathlib

/-!
Verification development for the Graphyy expression-evaluation and
curve-generation core (src/utils/mathUtils, src/utils/graphUtils and the
statistics utilities).

Modelling conventions.

JavaScript numbers are modelled exactly: a number is either a finite rational
(`JsNum.fin`), `NaN`, `Infinity` or `-Infinity`.  IEEE rounding and overflow of
finite arithmetic are outside the model (finite times finite stays finite);
the special values NaN and the two infinities, which the spec discusses
explicitly, are modelled with their usual propagation rules.

The third-party mathjs parsing/evaluation engine is not part of the
repository; `safeEvaluate` is therefore parameterised by an abstract engine
that, like mathjs, either throws (an `Except.error` carrying the thrown
`Error`'s message, or `none` when a non-`Error` value is thrown) or returns a
raw value: a number, a complex number (an object with an `im` field, whose
real part is read off the `re` field), or some other non-numeric value.
Variable scopes are association lists, first binding wins, mirroring the
JavaScript object spreads in the source (a later spread overriding earlier
keys is modelled by placing the spread's entries earlier in the list).

The for-loops of the sampling functions walk a rational grid; the loops are
embedded as fuel-indexed recursions whose fuel is sufficient for every range
with a positive step (the case in which the JavaScript loop terminates;
with `step <= 0` and `min <= max` the JavaScript loop diverges and the model
returns the empty list).
-/

/-- Model of a JavaScript number: a finite rational, NaN, or an infinity. -/
inductive JsNum where
  | fin (q : ℚ)
  | nan
  | inf
  | ninf
deriving DecidableEq

/-- Model of JavaScript `isFinite`. -/
def JsNum.isFinite : JsNum → Bool
  | .fin _ => true
  | _ => false

/-- Model of JavaScript `+` on numbers. -/
def JsNum.add : JsNum → JsNum → JsNum
  | .fin a, .fin b => .fin (a + b)
  | .nan, _ => .nan
  | _, .nan => .nan
  | .inf, .ninf => .nan
  | .ninf, .inf => .nan
  | .inf, _ => .inf
  | _, .inf => .inf
  | .ninf, _ => .ninf
  | _, .ninf => .ninf

/-- Model of JavaScript `*` on numbers. -/
def JsNum.mul : JsNum → JsNum → JsNum
  | .fin a, .fin b => .fin (a * b)
  | .nan, _ => .nan
  | _, .nan => .nan
  | .inf, .inf => .inf
  | .inf, .ninf => .ninf
  | .ninf, .inf => .ninf
  | .ninf, .ninf => .inf
  | .inf, .fin b => if 0 < b then .inf else if b < 0 then .ninf else .nan
  | .ninf, .fin b => if 0 < b then .ninf else if b < 0 then .inf else .nan
  | .fin a, .inf => if 0 < a then .inf else if a < 0 then .ninf else .nan
  | .fin a, .ninf => if 0 < a then .ninf else if a < 0 then .inf else .nan

/-- Raw value returned by the parsing/evaluation engine: a number, a complex
number (an object with `re`/`im` fields), or some other non-numeric value
(string, matrix, ...). -/
inductive JsValue where
  | num (v : JsNum)
  | complexV (re im : JsNum)
  | other
deriving DecidableEq

/-- Variable scope handed to the engine: an association list from variable
name to (finite) value, first binding wins. -/
abbrev Scope : Type := List (String × ℚ)

/-- Scope lookup, first binding wins. -/
def lookupVar (s : Scope) (k : String) : Option ℚ :=
  match s with
  | [] => none
  | (k', v) :: rest => if k' = k then some v else lookupVar rest k

/-- Abstract parsing/evaluation engine (mathjs `parse(...).evaluate(scope)`):
throws (error value: `some message` for an `Error`, `none` for a non-`Error`
throw) or returns a raw `JsValue`. -/
def Engine : Type := String → Scope → Except (Option String) JsValue

/-- Model of the `MathError` interface: `type` is one of the strings
"syntax", "domain", "computation", "overflow". -/
structure MathError where
  type : String
  message : String
  suggestions : List String
deriving DecidableEq

/-- Return value of `safeEvaluate`: `{ result: number | null; error: MathError | null }`.
The source always sets exactly one of the two fields to a non-null value. -/
structure SafeResult where
  result : Option JsNum
  error : Option MathError
deriving DecidableEq

/- ===== Expression sanitizer (sanitizeExpression) ===== -/

/-- Character class of the JavaScript regex `\w` / word boundary `\b`
(ASCII letters, digits, underscore). -/
def isWordChar (c : Char) : Bool := c.isAlphanum || c == '_'

/-- JavaScript `String.prototype.trim` (whitespace at both ends removed),
written on character lists so that it evaluates by kernel reduction. -/
def strTrim (s : String) : String :=
  ⟨((s.data.dropWhile Char.isWhitespace).reverse.dropWhile Char.isWhitespace).reverse⟩

/-- ASCII lowercasing of one character (`String.prototype.toLowerCase`;
the expressions concerned are ASCII). -/
def charToLower (c : Char) : Char :=
  if 'A' ≤ c && c ≤ 'Z' then Char.ofNat (c.toNat + 32) else c

/-- JavaScript `String.prototype.toLowerCase`. -/
def strToLower (s : String) : String := ⟨s.data.map charToLower⟩

/-- First phase of the sanitizer: `.replace(/['"`;]/g, '')`, removing quotes,
backticks (U+0060) and semicolons. -/
def removeDangerousChars (s : String) : String :=
  ⟨s.data.filter (fun c => !(c == '\'' || c == '"' || c == Char.ofNat 96 || c == ';'))⟩

/-- Denylist of the keyword-removal regex `\b(eval|Function|require|import|export)\b`,
in the regex's alternation order. -/
def kwList : List (List Char) :=
  ["eval".data, "Function".data, "require".data, "import".data, "export".data]

/-- Whether `pat` is a prefix of `l` (written out to match the regex engine's
character-by-character comparison). -/
def leadsWith : List Char → List Char → Bool
  | [], _ => true
  | _ :: _, [] => false
  | a :: as, b :: bs => a == b && leadsWith as bs

/-- Try the denylist alternatives in order at the current position: a keyword
matches when it is a prefix of `l` and the character following it is not a
word character (the trailing `\b`; the leading `\b` is checked by the caller).
Returns the rest of the input after the matched keyword. -/
def kwTry (l : List Char) : List (List Char) → Option (List Char)
  | [] => none
  | kw :: rest =>
    if leadsWith kw l then
      let remaining := l.drop kw.length
      if (match remaining with | [] => true | c :: _ => !isWordChar c) then some remaining
      else kwTry l rest
    else kwTry l rest

/-- Scan of `.replace(/\b(eval|Function|require|import|export)\b/g, '')`:
`prevIsWord` records whether the character preceding the current position in
the original string is a word character (its negation is the leading `\b`);
after a removal the scan continues right after the keyword, whose last
character is always a word character.  The recursion is structural on a fuel
argument so that the function evaluates by kernel reduction; every step
consumes at least one character, so a fuel of `length + 1` never runs out. -/
def stripKw : ℕ → Bool → List Char → List Char
  | 0, _, l => l
  | _ + 1, _, [] => []
  | fuel + 1, prevIsWord, c :: rest =>
    if prevIsWord then c :: stripKw fuel (isWordChar c) rest
    else
      match kwTry (c :: rest) kwList with
      | some remaining => stripKw fuel true remaining
      | none => c :: stripKw fuel (isWordChar c) rest

/-- Second phase of the sanitizer: keyword removal. -/
def removeKeywords (s : String) : String := ⟨stripKw (s.data.length + 1) false s.data⟩

/-- Scan of `.replace(/\.\./g, '')`: removes non-overlapping dot pairs left
to right. -/
def stripDots : List Char → List Char
  | '.' :: '.' :: rest => stripDots rest
  | c :: rest => c :: stripDots rest
  | [] => []

/-- Third phase of the sanitizer: path-traversal removal. -/
def removeDotDot (s : String) : String := ⟨stripDots s.data⟩

/-- Find the first `}` in the list, failing at a line terminator (the lazy
`.*?` of the template-literal regex cannot cross `\n`/`\r`); returns the rest
of the input after the `}`. -/
def findCloseBrace : List Char → Option (List Char)
  | [] => none
  | c :: rest =>
    if c = Char.ofNat 125 then some rest
    else if c = '\n' ∨ c = '\r' then none
    else findCloseBrace rest

/-- Scan of `.replace(/\$\{.*?\}/g, '')`: at each `${`, lazily look for the
nearest `}` on the same line and drop the whole template literal; if none is
found the regex engine advances one character and keeps searching.  Fuel as
in `stripKw`. -/
def stripTpl : ℕ → List Char → List Char
  | 0, l => l
  | _ + 1, [] => []
  | _ + 1, [c] => [c]
  | fuel + 1, c :: c2 :: rest2 =>
    if c = '$' ∧ c2 = Char.ofNat 123 then
      match findCloseBrace rest2 with
      | some rest' => stripTpl fuel rest'
      | none => c :: stripTpl fuel (c2 :: rest2)
    else c :: stripTpl fuel (c2 :: rest2)

/-- Fourth phase of the sanitizer: template-literal removal. -/
def removeTemplateLiterals (s : String) : String := ⟨stripTpl (s.data.length + 1) s.data⟩

/-- One `.replace(sym, text)` pass for a single-character pattern. -/
def replaceCharWith (c : Char) (r : String) (s : String) : String :=
  ⟨(s.data.map (fun a => if a = c then r.data else [a])).flatten⟩

/-- Fifth phase of the sanitizer: the seven Unicode math-symbol replacement
passes, in source order. -/
def replaceMathSymbols (s : String) : String :=
  replaceCharWith '≈' "==" (replaceCharWith '±' "+" (replaceCharWith '∞' "Infinity"
    (replaceCharWith '√' "sqrt" (replaceCharWith 'π' "pi"
      (replaceCharWith '÷' "/" (replaceCharWith '×' "*" s))))))

/-- Model of `sanitizeExpression`: the removal phases in source order, then
the symbol replacements, then `trim`. -/
def sanitizeExpression (expression : String) : String :=
  strTrim (replaceMathSymbols
    (removeTemplateLiterals (removeDotDot (removeKeywords (removeDangerousChars expression)))))

/- ===== Safe evaluator (safeEvaluate) ===== -/

/-- The `computation` error built by `safeEvaluate` for a non-finite result. -/
def computationError : MathError :=
  ⟨"computation", "Result is not a finite number",
    ["Check for division by zero", "Verify domain restrictions"]⟩

/-- The `syntax` error built by `safeEvaluate`'s catch block. -/
def syntaxError (thrown : Option String) : MathError :=
  ⟨"syntax", thrown.getD "Unknown error",
    ["Check syntax", "Verify function names", "Check parentheses"]⟩

/-- Model of `safeEvaluate`: sanitize, hand to the engine, read a complex
result's real part, reject non-finite or non-numeric results, turn a throw
into a `syntax` error.  (The source's `console.log` has no effect on the
result and is not modelled.) -/
def safeEvaluate (engine : Engine) (expression : String) (vars : Scope) : SafeResult :=
  match engine (sanitizeExpression expression) vars with
  | .error thrown => ⟨none, some (syntaxError thrown)⟩
  | .ok raw =>
    match raw with
    | .complexV re _ => ⟨some re, none⟩
    | .num v => if v.isFinite then ⟨some v, none⟩ else ⟨none, some computationError⟩
    | .other => ⟨none, some computationError⟩

/- ===== Samplers / curve generation ===== -/

/-- Sampler output point (world coordinates); the sampler only ever pushes
finite coordinates, modelled here as rationals. -/
structure PointQ where
  x : ℚ
  y : ℚ
deriving DecidableEq

/-- Fields of `FunctionExpression` consumed by the samplers (the remaining
fields — id, color, style, ... — are never read by the modelled code). -/
structure FunctionExpression where
  expression : String
deriving DecidableEq

/-- Range triple `{ min, max, step }`. -/
structure SampleRange where
  min : ℚ
  max : ℚ
  step : ℚ
deriving DecidableEq

/-- Generic embedding of the sampling loop
`for (let x = min; x <= max; x += step) { ...push if body produces a point... }`,
as a fuel-indexed recursion. -/
def loopSample (body : ℚ → Option PointQ) (maxV stepV : ℚ) : ℚ → ℕ → List PointQ
  | _, 0 => []
  | x, fuel + 1 =>
    if x ≤ maxV then
      match body x with
      | some p => p :: loopSample body maxV stepV (x + stepV) fuel
      | none => loopSample body maxV stepV (x + stepV) fuel
    else []

/-- Fuel sufficient for the loop when the step is positive: one more than the
number of grid points `min + i*step ≤ max`. -/
def iterFuel (minV maxV stepV : ℚ) : ℕ :=
  if 0 < stepV then (Int.floor ((maxV - minV) / stepV)).toNat + 1 else 0

/-- The x-grid actually visited by the loop: the first `iterFuel` grid points,
cut off at the first one exceeding `max`. -/
def sampleGrid (rng : SampleRange) : List ℚ :=
  (((List.range (iterFuel rng.min rng.max rng.step)).map
      (fun i : ℕ => rng.min + (i : ℚ) * rng.step)).takeWhile (fun q => decide (q ≤ rng.max)))

/-- Loop body of `evaluateFunction`: scope `{ x, ...additionalVariables }`
(the spread overriding `x`), push `(x, result)` when the result is non-null
and finite. -/
def cartesianBody (engine : Engine) (func : FunctionExpression) (additionalVars : Scope)
    (x : ℚ) : Option PointQ :=
  match (safeEvaluate engine func.expression (additionalVars ++ [("x", x)])).result with
  | some (JsNum.fin y) => some ⟨x, y⟩
  | some _ => none
  | none => none

/-- Model of `evaluateFunction` (cartesian sampler). -/
def evaluateFunction (engine : Engine) (func : FunctionExpression) (xRange : SampleRange)
    (additionalVars : Scope) : List PointQ :=
  loopSample (cartesianBody engine func additionalVars) xRange.max xRange.step xRange.min
    (iterFuel xRange.min xRange.max xRange.step)

/-- Loop body of `evaluateParametricFunction`: scope
`{ [parameter]: t, ...additionalVariables }`; push only when both expressions
evaluate to non-null finite values. -/
def parametricBody (engine : Engine) (xExpression yExpression parameter : String)
    (additionalVars : Scope) (t : ℚ) : Option PointQ :=
  let scope := additionalVars ++ [(parameter, t)]
  match (safeEvaluate engine xExpression scope).result,
        (safeEvaluate engine yExpression scope).result with
  | some (JsNum.fin xv), some (JsNum.fin yv) => some ⟨xv, yv⟩
  | _, _ => none

/-- Model of `evaluateParametricFunction`. -/
def evaluateParametricFunction (engine : Engine) (xExpression yExpression parameter : String)
    (paramRange : SampleRange) (additionalVars : Scope) : List PointQ :=
  loopSample (parametricBody engine xExpression yExpression parameter additionalVars)
    paramRange.max paramRange.step paramRange.min
    (iterFuel paramRange.min paramRange.max paramRange.step)

/-- Loop body of `evaluatePolarFunction`: scope
`{ theta, t: theta, ...additionalVariables }`; when `r` is non-null and
finite, convert with `x = r*cos(theta)`, `y = r*sin(theta)` (the `Math.cos` /
`Math.sin` library functions are abstract parameters `cosF`, `sinF` of the
model) and push only when both coordinates are finite. -/
def polarBody (cosF sinF : ℚ → JsNum) (engine : Engine) (rExpression : String)
    (additionalVars : Scope) (theta : ℚ) : Option PointQ :=
  match (safeEvaluate engine rExpression
          (additionalVars ++ [("theta", theta), ("t", theta)])).result with
  | some (JsNum.fin r) =>
    match JsNum.mul (.fin r) (cosF theta), JsNum.mul (.fin r) (sinF theta) with
    | .fin xv, .fin yv => some ⟨xv, yv⟩
    | _, _ => none
  | some _ => none
  | none => none

/-- Model of `evaluatePolarFunction`. -/
def evaluatePolarFunction (cosF sinF : ℚ → JsNum) (engine : Engine) (rExpression : String)
    (thetaRange : SampleRange) (additionalVars : Scope) : List PointQ :=
  loopSample (polarBody cosF sinF engine rExpression additionalVars)
    thetaRange.max thetaRange.step thetaRange.min
    (iterFuel thetaRange.min thetaRange.max thetaRange.step)

/- ===== Numerical integral (Simpson's rule) ===== -/

/-- Scope `{ ...variables, x }` used by the numerical-analysis kit: the `x`
key written last overrides any `x` in the spread. -/
def xScope (additionalVars : Scope) (x : ℚ) : Scope := ("x", x) :: additionalVars

/-- The `if (n % 2 !== 0) n++` normalisation in `numericalIntegral`. -/
def forcedEven (n : ℕ) : ℕ := if n % 2 ≠ 0 then n + 1 else n

/-- One of the two accumulation loops of `numericalIntegral`: walk the listed
indices in order, evaluate at `x = a + i*h`, abort with `null` on a null
result, otherwise accumulate `sum += mult * fx.result`. -/
def integralLoop (engine : Engine) (expression : String) (vars : Scope) (a h mult : ℚ) :
    List ℕ → JsNum → Option JsNum
  | [], sum => some sum
  | i :: rest, sum =>
    match (safeEvaluate engine expression (xScope vars (a + (i : ℚ) * h))).result with
    | none => none
    | some v => integralLoop engine expression vars a h mult rest
        (sum.add ((JsNum.fin mult).mul v))

/-- Indices visited by `for (let i = 1; i < n; i += 2)`. -/
def oddIndices (n : ℕ) : List ℕ := (List.range n).filter (fun i => i % 2 = 1)

/-- Indices visited by `for (let i = 2; i < n; i += 2)`. -/
def evenInteriorIndices (n : ℕ) : List ℕ :=
  (List.range n).filter (fun i => i % 2 = 0 && i ≠ 0)

/-- Model of `numericalIntegral` (composite Simpson's rule; `n = 0` is outside
the model's intent — there the JavaScript `h` is infinite while the rational
division yields 0 — every claim concerns `n ≥ 1`). -/
def numericalIntegral (engine : Engine) (expression : String) (a b : ℚ) (n : ℕ)
    (additionalVars : Scope) : Option JsNum :=
  let n' := forcedEven n
  let h := (b - a) / (n' : ℚ)
  match (safeEvaluate engine expression (xScope additionalVars a)).result,
        (safeEvaluate engine expression (xScope additionalVars b)).result with
  | some fa, some fb =>
    let sum := (JsNum.fin 0).add (fa.add fb)
    match integralLoop engine expression additionalVars a h 4 (oddIndices n') sum with
    | none => none
    | some s1 =>
      match integralLoop engine expression additionalVars a h 2 (evenInteriorIndices n') s1 with
      | none => none
      | some s2 => some ((JsNum.fin (h / 3)).mul s2)
  | _, _ => none

/-- Composite Simpson value as the spec states it:
`(h/3) * (f(a) + f(b) + 4*sum of f at odd nodes + 2*sum of f at even interior nodes)`
with `h = (b-a)/n`, for an even `n` and node values `y i = f(a + i*h)`. -/
def simpsonValue (a b : ℚ) (n : ℕ) (y : ℕ → ℚ) : ℚ :=
  let h := (b - a) / (n : ℚ)
  (h / 3) * ((y 0 + y n) + 4 * (∑ k ∈ Finset.range (n / 2), y (2 * k + 1))
    + 2 * (∑ k ∈ Finset.range (n / 2 - 1), y (2 * k + 2)))

/- ===== Statistics / regression ===== -/

/-- Mean of a list of values (`simple-statistics` `ss.mean`). -/
def ssMean (l : List ℚ) : ℚ := l.sum / l.length

/-- Sum of `f` over a dataset, as accumulated by the source's `forEach` loops. -/
def sumBy (data : List PointQ) (f : PointQ → ℚ) : ℚ := (data.map f).sum

/-- Modelled from the spec: the external `simple-statistics` `linearRegression`
routine, ordinary least squares returning the pair `(m, b)` (slope,
intercept) for `y = m*x + b`. -/
def ssLinearRegressionMB (points : List (ℚ × ℚ)) : ℚ × ℚ :=
  let n : ℚ := points.length
  let sumX := (points.map (fun p => p.1)).sum
  let sumY := (points.map (fun p => p.2)).sum
  let sumXY := (points.map (fun p => p.1 * p.2)).sum
  let sumX2 := (points.map (fun p => p.1 * p.1)).sum
  let m := (n * sumXY - sumX * sumY) / (n * sumX2 - sumX * sumX)
  let b := (sumY - m * sumX) / n
  (m, b)

/-- Model of `RegressionResult` (the display-only `equation` string, built
with `toFixed`, is omitted from the model; no claim concerns it). -/
structure RegressionResult where
  type : String
  rSquared : ℚ
  coefficients : List ℚ
  residuals : List ℚ
deriving DecidableEq

/-- Decidable "did not throw" test on a regression outcome. -/
def isOkE (e : Except String RegressionResult) : Bool :=
  match e with
  | .ok _ => true
  | .error _ => false

/-- Model of `linearRegression`: throws below 2 points, otherwise OLS fit with
R² against the dataset and a residual vector aligned with the input. -/
def linearRegression (data : List PointQ) : Except String RegressionResult :=
  if data.length < 2 then .error "Need at least 2 data points for regression"
  else
    let mb := ssLinearRegressionMB (data.map (fun p => (p.x, p.y)))
    let m := mb.1
    let b := mb.2
    let meanY := ssMean (data.map (fun p => p.y))
    let totalSumSquares := sumBy data (fun p => (p.y - meanY) ^ 2)
    let residualSumSquares := sumBy data (fun p => (p.y - (m * p.x + b)) ^ 2)
    let rSquared := 1 - residualSumSquares / totalSumSquares
    .ok ⟨"linear", rSquared, [b, m], data.map (fun p => p.y - (m * p.x + b))⟩

/-- Determinant of the quadratic normal-equations system exactly as the
source computes it (Cramer's rule denominator). -/
def quadDet (data : List PointQ) : ℚ :=
  let n : ℚ := data.length
  let sumX := sumBy data (fun p => p.x)
  let sumX2 := sumBy data (fun p => p.x * p.x)
  let sumX3 := sumBy data (fun p => p.x * p.x * p.x)
  let sumX4 := sumBy data (fun p => (p.x * p.x) * (p.x * p.x))
  n * (sumX2 * sumX4 - sumX3 * sumX3) - sumX * (sumX * sumX4 - sumX2 * sumX3) +
    sumX2 * (sumX * sumX3 - sumX2 * sumX2)

/-- The coefficient/R²/residual computation of `quadraticRegression` after
the singularity check has passed, with the source's exact `c`, `b`, `a`
numerators. -/
def quadraticFit (data : List PointQ) : RegressionResult :=
  let n : ℚ := data.length
  let sumX := sumBy data (fun p => p.x)
  let sumX2 := sumBy data (fun p => p.x * p.x)
  let sumX3 := sumBy data (fun p => p.x * p.x * p.x)
  let sumX4 := sumBy data (fun p => (p.x * p.x) * (p.x * p.x))
  let sumY := sumBy data (fun p => p.y)
  let sumXY := sumBy data (fun p => p.x * p.y)
  let sumX2Y := sumBy data (fun p => p.x * p.x * p.y)
  let det := quadDet data
  let c := (sumY * (sumX2 * sumX4 - sumX3 * sumX3) - sumXY * (sumX * sumX4 - sumX2 * sumX3) +
      sumX2Y * (sumX * sumX3 - sumX2 * sumX2)) / det
  let b := (n * (sumXY * sumX4 - sumX2Y * sumX3) - sumY * (sumX * sumX4 - sumX2 * sumX3) +
      sumX2Y * (sumX * sumX2 - n * sumX3)) / det
  let a := (n * (sumX2 * sumX2Y - sumX3 * sumXY) - sumX * (sumX * sumX2Y - sumX2 * sumXY) +
      sumY * (sumX * sumX3 - sumX2 * sumX2)) / det
  let meanY := ssMean (data.map (fun p => p.y))
  let totalSumSquares := sumBy data (fun p => (p.y - meanY) ^ 2)
  let residualSumSquares := sumBy data (fun p => (p.y - (a * p.x * p.x + b * p.x + c)) ^ 2)
  let rSquared := 1 - residualSumSquares / totalSumSquares
  ⟨"polynomial", rSquared, [c, b, a], data.map (fun p => p.y - (a * p.x * p.x + b * p.x + c))⟩

/-- Model of `quadraticRegression`: size precondition, singularity check on
the Cramer determinant (`|det| < 1e-10`), then the closed-form fit. -/
def quadraticRegression (data : List PointQ) : Except String RegressionResult :=
  if data.length < 3 then .error "Need at least 3 data points for quadratic regression"
  else if |quadDet data| < 1 / 10 ^ 10 then
    .error "Cannot solve quadratic regression - singular matrix"
  else .ok (quadraticFit data)

/-- Model of `polynomialRegression`: size precondition on `degree + 1`
points, degree 2 delegates to quadratic, anything else falls back to linear. -/
def polynomialRegression (data : List PointQ) (degree : ℕ) : Except String RegressionResult :=
  if data.length < degree + 1 then
    .error ("Need at least " ++ toString (degree + 1) ++ " data points for degree " ++
      toString degree ++ " polynomial")
  else if degree = 2 then quadraticRegression data
  else linearRegression data

/- ===== Function classifier (detectFunctionType) ===== -/

/-- The `FunctionType` string-literal union. -/
inductive FunctionType where
  | linear
  | quadratic
  | polynomial
  | trigonometric
  | logarithmic
  | exponential
  | parametric
  | polar
  | implicit
  | piecewise
  | recursive
  | complex
deriving DecidableEq

/-- JavaScript `String.prototype.includes` on character lists. -/
def containsSeq (l pat : List Char) : Bool :=
  match l with
  | [] => pat.isEmpty
  | _ :: t => leadsWith pat l || containsSeq t pat

/-- JavaScript `String.prototype.includes`. -/
def strIncludes (s sub : String) : Bool := containsSeq s.data sub.data

/-- JavaScript `String.prototype.startsWith`. -/
def strStartsWith (s sub : String) : Bool := leadsWith sub.data s.data

/-- Whitespace class of the JavaScript regex `\s` (restricted to the ASCII
whitespace actually occurring in expressions). -/
def isJsWs (c : Char) : Bool := c == ' ' || c == '\t' || c == '\n' || c == '\r'

/-- Test of the exponential-pattern regex `\b\d+\s*\^\s*x` at the current
position (leading word boundary checked by the caller). -/
def matchNumCaretX (l : List Char) : Bool :=
  let ds := l.takeWhile Char.isDigit
  if ds.isEmpty then false
  else
    match (l.drop ds.length).dropWhile isJsWs with
    | '^' :: r2 =>
      match r2.dropWhile isJsWs with
      | 'x' :: _ => true
      | _ => false
    | _ => false

/-- Test of the exponential-pattern regex `\be\s*\^\s*x` at the current
position. -/
def matchECaretX (l : List Char) : Bool :=
  match l with
  | 'e' :: r =>
    match r.dropWhile isJsWs with
    | '^' :: r2 =>
      match r2.dropWhile isJsWs with
      | 'x' :: _ => true
      | _ => false
    | _ => false
  | _ => false

/-- `.test` of `/\b\d+\s*\^\s*x|\be\s*\^\s*x/`: try each position, leading
word boundary = previous character is not a word character. -/
def expRegexTest (prevIsWord : Bool) : List Char → Bool
  | [] => false
  | c :: rest =>
    (!prevIsWord && (matchNumCaretX (c :: rest) || matchECaretX (c :: rest))) ||
      expRegexTest (isWordChar c) rest

/-- Decimal `parseInt` on a digit run. -/
def digitsToNat (ds : List Char) : ℕ :=
  ds.foldl (fun acc c => 10 * acc + (c.toNat - '0'.toNat)) 0

/-- All-match scan of `/x\s*\^\s*(\d+)/g` over the cleaned expression,
returning the exponents; after a match the scan resumes right after the
matched digits.  Fuel as in `stripKw`. -/
def scanPowers : ℕ → List Char → List ℕ
  | 0, _ => []
  | _ + 1, [] => []
  | fuel + 1, c :: rest =>
    if c = 'x' then
      match rest.dropWhile isJsWs with
      | '^' :: r2 =>
        let r3 := r2.dropWhile isJsWs
        let ds := r3.takeWhile Char.isDigit
        if ds.isEmpty then scanPowers fuel rest
        else digitsToNat ds :: scanPowers fuel (r3.drop ds.length)
      | _ => scanPowers fuel rest
    else scanPowers fuel rest

/-- Number of greedy repetitions of `(\*x)` at the current position. -/
def countStarX : List Char → ℕ
  | '*' :: 'x' :: rest => countStarX rest + 1
  | _ => 0

/-- All-match scan of `/x(\*x)+/g`, returning the count of `x` characters in
each match.  Fuel as in `stripKw`. -/
def scanMultChains : ℕ → List Char → List ℕ
  | 0, _ => []
  | _ + 1, [] => []
  | fuel + 1, c :: rest =>
    if c = 'x' then
      let k := countStarX rest
      if k = 0 then scanMultChains fuel rest
      else (k + 1) :: scanMultChains fuel (rest.drop (2 * k))
    else scanMultChains fuel rest

/-- Model of `getPolynomialDegree`: strip whitespace and lowercase, take the
maximum over explicit `x^n` powers and `x*x*...` chains, defaulting to 1 when
`x` occurs with no detected power. -/
def getPolynomialDegree (expression : String) : ℕ :=
  let clean : String := strToLower ⟨expression.data.filter (fun c => !isJsWs c)⟩
  let fromPowers := (scanPowers (clean.data.length + 1) clean.data).foldl Nat.max 0
  let fromChains := (scanMultChains (clean.data.length + 1) clean.data).foldl Nat.max 0
  let maxDegree := Nat.max fromPowers fromChains
  if maxDegree == 0 && clean.data.contains 'x' then 1 else maxDegree

/-- Model of `detectFunctionType`: the ordered first-match-wins decision
list of the source. -/
def detectFunctionType (expression : String) : FunctionType :=
  if strTrim expression = "" then .polynomial
  else
    let clean := strTrim (strToLower expression)
    if ["sin", "cos", "tan", "sec", "csc", "cot", "asin", "acos", "atan"].any
        (fun f => strIncludes clean f) then .trigonometric
    else if ["log", "ln", "log10", "log2"].any (fun f => strIncludes clean f) then
      .logarithmic
    else if ["exp", "e^"].any (fun f => strIncludes clean f) ||
        expRegexTest false clean.data then .exponential
    else if strIncludes clean "t" &&
        (strIncludes clean "x(t)" || strIncludes clean "y(t)" ||
         strIncludes clean "x=" || strIncludes clean "y=") then .parametric
    else if strIncludes clean "theta" || strIncludes clean "θ" ||
        (strIncludes clean "r" && !strIncludes clean "sqrt") then .polar
    else if strIncludes clean "x" && strIncludes clean "y" &&
        !strStartsWith clean "y=" && !strStartsWith clean "f(x)=" then .implicit
    else if strIncludes clean "\x7b" || strIncludes clean "if" ||
        strIncludes clean "?" || strIncludes clean ":" then .piecewise
    else
      let degree := getPolynomialDegree clean
      if degree = 1 then .linear
      else if degree = 2 then .quadratic
      else if degree > 0 then .polynomial
      else .polynomial

/- ===== Curve simplification (graphUtils) ===== -/

/-- Point in world coordinates for the geometry utilities (real-valued, since
`distanceToLine` takes square roots). -/
structure Point2D where
  x : ℝ
  y : ℝ

/-- Placeholder point used to read `points[i]` at indices that are always in
bounds in the source. -/
def dummyPoint : Point2D := ⟨0, 0⟩

/-- Model of `distanceToLine`: distance from `point` to the segment from
`lineStart` to `lineEnd` (the source assigns `xx`/`yy` in one if/else chain;
here the chain is duplicated for the two coordinates, which is equivalent). -/
noncomputable def distanceToLine (point lineStart lineEnd : Point2D) : ℝ :=
  let A := lineEnd.x - lineStart.x
  let B := lineEnd.y - lineStart.y
  let C := lineStart.x - point.x
  let D := lineStart.y - point.y
  let dot := A * C + B * D
  let lenSq := A * A + B * B
  if lenSq = 0 then Real.sqrt (C * C + D * D)
  else
    let param := -dot / lenSq
    let xx := if param < 0 then lineStart.x else if 1 < param then lineEnd.x
      else lineStart.x + param * A
    let yy := if param < 0 then lineStart.y else if 1 < param then lineEnd.y
      else lineStart.y + param * B
    let dx := point.x - xx
    let dy := point.y - yy
    Real.sqrt (dx * dx + dy * dy)

/-- The max-distance scan of `douglasPeucker`: fold over the interior indices
`1 .. length-2`, keeping the running `(maxDistance, maxIndex)` (strict
comparison, initial value `(0, 0)`). -/
noncomputable def dpScan (points : List Point2D) (firstP lastP : Point2D) : ℝ × ℕ :=
  (List.range' 1 (points.length - 2)).foldl
    (fun acc i =>
      let d := distanceToLine (points.getD i dummyPoint) firstP lastP
      if acc.1 < d then (d, i) else acc)
    (0, 0)

/-- Fuel-indexed embedding of the recursive `douglasPeucker`: with at most two
points return as-is, otherwise find the farthest interior point from the
first-last chord; above tolerance recurse on both halves and concatenate
(dropping the duplicated junction point), otherwise collapse to the two
endpoints.  (With a tolerance `< 0` the JavaScript recursion can fail to make
progress — `maxIndex = 0` — and diverges; exhausted fuel returns the input.) -/
noncomputable def dpAux : ℕ → List Point2D → ℝ → List Point2D
  | 0, points, _ => points
  | fuel + 1, points, tolerance =>
    if points.length ≤ 2 then points
    else
      let firstP := points.getD 0 dummyPoint
      let lastP := points.getD (points.length - 1) dummyPoint
      let scan := dpScan points firstP lastP
      if tolerance < scan.1 then
        let left := dpAux fuel (points.take (scan.2 + 1)) tolerance
        let right := dpAux fuel (points.drop scan.2) tolerance
        left.dropLast ++ right
      else [firstP, lastP]

/-- Model of `douglasPeucker` (fuel = input length suffices on every input on
which the JavaScript recursion terminates). -/
noncomputable def douglasPeucker (points : List Point2D) (tolerance : ℝ) : List Point2D :=
  dpAux points.length points tolerance

/-- Model of `simplifyPoints`. -/
noncomputable def simplifyPoints (points : List Point2D) (tolerance : ℝ) : List Point2D :=
  if points.length ≤ 2 then points else douglasPeucker points tolerance

/- ===== Concrete instances used by the claim theorems ===== -/

/-- Engine that returns a complex number with an infinite real part (as
mathjs does for e.g. an overflowing real multiplied by `i`). -/
def ceComplexEngine : Engine := fun _ _ => Except.ok (JsValue.complexV JsNum.inf (JsNum.fin 1))

/-- Engine that returns the real number NaN. -/
def nanEngine : Engine := fun _ _ => Except.ok (JsValue.num JsNum.nan)

/-- Engine that throws an `Error` with a parse message. -/
def throwEngine : Engine := fun _ _ => Except.error (some "Unexpected end of expression")

/-- Engine that returns a non-numeric value on every input. -/
def allBadEngine : Engine := fun _ _ => Except.ok JsValue.other

/-- Engine that always returns a complex number with an infinite real part
(so every sample is non-finite). -/
def ce5engine : Engine := fun _ _ => Except.ok (JsValue.complexV JsNum.inf (JsNum.fin 0))

/-- Engine that returns the constant 1. -/
def constOneEngine : Engine := fun _ _ => Except.ok (JsValue.num (JsNum.fin 1))

/-- Three collinear data points (on `y = x`) with distinct x-coordinates. -/
def quadCollinearData : List PointQ := [⟨0, 0⟩, ⟨1, 1⟩, ⟨2, 2⟩]

/-- Three data points sharing the x-coordinate 1. -/
def constXData : List PointQ := [⟨1, 0⟩, ⟨1, 1⟩, ⟨1, 5⟩]

/-- Three data points for the degree-3 precondition counterexample. -/
def d3Points : List PointQ := [⟨0, 0⟩, ⟨1, 1⟩, ⟨2, 2⟩]

/-- Four data points for the degree-3 fallback witness. -/
def d4Points : List PointQ := [⟨0, 0⟩, ⟨1, 1⟩, ⟨2, 2⟩, ⟨3, 3⟩]

/-- Collinear points on the x-axis whose middle point lies beyond the chord
between the first and the last point. -/
def ce8points : List Point2D := [⟨0, 0⟩, ⟨5, 0⟩, ⟨1, 0⟩]

/-- Three collinear points on the x-axis in increasing order. -/
def c8chordPoints : List Point2D := [⟨0, 0⟩, ⟨1, 0⟩, ⟨2, 0⟩]

/-- Two points for the simplification-endpoint witness. -/
def c10points : List Point2D := [⟨0, 0⟩, ⟨1, 2⟩]

/- ===================================================================== -/
/- Theorems                                                              -/
/- ===================================================================== -/

/-- Claim C1 (counterexample): the complex-truncation path of `safeEvaluate`
returns the raw complex result's real part without a finiteness check, so an
engine outcome `Complex(Infinity, 1)` makes `safeEvaluate` return the
non-finite value `Infinity` instead of the claimed `computation` error. -/
theorem safeEvaluate_finiteness_cex :
    safeEvaluate ceComplexEngine "x" [] = ⟨some JsNum.inf, none⟩ ∧
    JsNum.isFinite JsNum.inf = false := by
  constructor <;> decide

/-- Claim C1 (amended): for raw engine results that are not complex numbers,
`safeEvaluate` returns a value only when the raw result is a finite real
number, and returns the `computation` error (with the division-by-zero and
domain-restriction suggestions) on every non-finite or non-numeric raw
result; a complex raw result has its real part returned unchecked. -/
theorem safeEvaluate_finiteness_amended (engine : Engine) (e : String) (s : Scope) :
    (∀ v : JsNum, engine (sanitizeExpression e) s = .ok (.num v) → v.isFinite = true →
      safeEvaluate engine e s = ⟨some v, none⟩) ∧
    (∀ v : JsNum, engine (sanitizeExpression e) s = .ok (.num v) → v.isFinite = false →
      safeEvaluate engine e s = ⟨none, some computationError⟩) ∧
    (engine (sanitizeExpression e) s = .ok .other →
      safeEvaluate engine e s = ⟨none, some computationError⟩) ∧
    (∀ re im : JsNum, engine (sanitizeExpression e) s = .ok (.complexV re im) →
      safeEvaluate engine e s = ⟨some re, none⟩) := by
  refine ⟨?_, ?_, ?_, ?_⟩
  · intro v hv hfin
    simp [safeEvaluate, hv, hfin]
  · intro v hv hfin
    simp [safeEvaluate, hv, hfin]
  · intro hv
    simp [safeEvaluate, hv]
  · intro re im hv
    simp [safeEvaluate, hv]

/-- Claim C1 (amended, witness): a NaN raw result at a concrete input yields
the `computation` error. -/
theorem safeEvaluate_finiteness_amended_witness :
    safeEvaluate nanEngine "1/0" [] = ⟨none, some computationError⟩ :=
  (safeEvaluate_finiteness_amended nanEngine "1/0" []).2.1 JsNum.nan rfl rfl

/-- Claim C2: `safeEvaluate` is total at its boundary — for every engine,
expression and scope it returns exactly one of a value or an error — and a
throwing parse/evaluation (any engine error) produces the `syntax` error
carrying the engine's message together with the syntax / function-name /
parentheses suggestions. -/
theorem safeEvaluate_never_raises (engine : Engine) (e : String) (s : Scope) :
    (((safeEvaluate engine e s).error = none ∧ ∃ v, (safeEvaluate engine e s).result = some v) ∨
     ((safeEvaluate engine e s).result = none ∧
       ∃ err, (safeEvaluate engine e s).error = some err)) ∧
    (∀ thrown, engine (sanitizeExpression e) s = .error thrown →
      safeEvaluate engine e s = ⟨none, some (syntaxError thrown)⟩) := by
  constructor
  · unfold safeEvaluate
    cases hE : engine (sanitizeExpression e) s with
    | error thrown => exact Or.inr ⟨rfl, _, rfl⟩
    | ok raw =>
      cases raw with
      | num v =>
        by_cases hf : v.isFinite = true
        · exact Or.inl (by simp [hf])
        · right
          simp only [Bool.not_eq_true] at hf
          simp [hf]
      | complexV re im => exact Or.inl ⟨rfl, _, rfl⟩
      | other => exact Or.inr ⟨rfl, _, rfl⟩
  · intro thrown hE
    simp [safeEvaluate, hE]

/-- Claim C2 (witness): a concrete throwing engine produces the `syntax`
error with the engine's message. -/
theorem safeEvaluate_never_raises_witness :
    safeEvaluate throwEngine "(" [] =
      ⟨none, some (syntaxError (some "Unexpected end of expression"))⟩ :=
  (safeEvaluate_never_raises throwEngine "(" []).2 (some "Unexpected end of expression") rfl

/-- Claim C3 (counterexample): the sanitizer is not idempotent — in
`"ev..al"` the dot-removal phase (which runs after keyword removal) splices
the two halves into the keyword `eval`, which only a second application
removes: `sanitize "ev..al" = "eval"` but `sanitize (sanitize "ev..al") = ""`. -/
theorem sanitizeExpression_not_idempotent_cex :
    sanitizeExpression "ev..al" = "eval" ∧
    sanitizeExpression (sanitizeExpression "ev..al") = "" ∧
    sanitizeExpression (sanitizeExpression "ev..al") ≠ sanitizeExpression "ev..al" := by
  refine ⟨by decide, by decide, by decide⟩

/-- Claim C3 (amended): the sanitizer is idempotent exactly on the inputs
whose sanitized form is a fixed point of every individual phase: whenever
each removal phase, the symbol-replacement pass and `trim` leave
`sanitizeExpression e` unchanged, a second sanitization changes nothing.
(In general idempotence fails: the phases run in a fixed order, and the
later dot- and template-removal phases can splice new denylist keywords.) -/
theorem sanitizeExpression_idempotent_amended (e : String)
    (h1 : removeDangerousChars (sanitizeExpression e) = sanitizeExpression e)
    (h2 : removeKeywords (sanitizeExpression e) = sanitizeExpression e)
    (h3 : removeDotDot (sanitizeExpression e) = sanitizeExpression e)
    (h4 : removeTemplateLiterals (sanitizeExpression e) = sanitizeExpression e)
    (h5 : replaceMathSymbols (sanitizeExpression e) = sanitizeExpression e)
    (h6 : strTrim (sanitizeExpression e) = sanitizeExpression e) :
    sanitizeExpression (sanitizeExpression e) = sanitizeExpression e := by
  show strTrim (replaceMathSymbols (removeTemplateLiterals (removeDotDot (removeKeywords
    (removeDangerousChars (sanitizeExpression e)))))) = sanitizeExpression e
  rw [h1, h2, h3, h4, h5, h6]

/-- Claim C3 (amended, witness): a concrete phase-fixed expression on which
sanitization is idempotent. -/
theorem sanitizeExpression_idempotent_amended_witness :
    sanitizeExpression (sanitizeExpression "x^2 + 1") = sanitizeExpression "x^2 + 1" :=
  sanitizeExpression_idempotent_amended "x^2 + 1" (by decide) (by decide) (by decide)
    (by decide) (by decide) (by decide)

/-- Claim C9: the classifier's ordered decision list classifies `sin(x)` as
trigonometric, `x^2+2*x+1` as quadratic, and the empty string as polynomial. -/
theorem detectFunctionType_examples :
    detectFunctionType "sin(x)" = FunctionType.trigonometric ∧
    detectFunctionType "x^2+2*x+1" = FunctionType.quadratic ∧
    detectFunctionType "" = FunctionType.polynomial := by
  refine ⟨by decide, by decide, by decide⟩


/-- Helper: the sampling loop equals filtering the body over the walked grid
(the prefix of the arithmetic grid within `max`), for any fuel. -/
theorem loopSample_eq (body : ℚ → Option PointQ) (maxV stepV : ℚ) :
    ∀ (fuel : ℕ) (x : ℚ),
      loopSample body maxV stepV x fuel =
        (((List.range fuel).map (fun i : ℕ => x + (i : ℚ) * stepV)).takeWhile
          (fun q => decide (q ≤ maxV))).filterMap body := by
  intro fuel
  induction fuel with
  | zero => intro x; simp [loopSample]
  | succ n ih =>
    intro x
    have hgrid : (List.range (n + 1)).map (fun i : ℕ => x + (i : ℚ) * stepV) =
        x :: (List.range n).map (fun i : ℕ => (x + stepV) + (i : ℚ) * stepV) := by
      rw [List.range_succ_eq_map, List.map_cons, List.map_map]
      have hhead : x + ((0 : ℕ) : ℚ) * stepV = x := by push_cast; ring
      rw [hhead]
      congr 1
      apply List.map_congr_left
      intro i _
      simp only [Function.comp_apply]
      push_cast
      ring
    rw [hgrid]
    by_cases hx : x ≤ maxV
    · simp only [List.takeWhile_cons, decide_eq_true hx, if_true]
      cases hb : body x with
      | some p =>
        simp only [loopSample, hx, if_true, hb, List.filterMap_cons, ih (x + stepV)]
      | none =>
        simp only [loopSample, hx, if_true, hb, List.filterMap_cons, ih (x + stepV)]
    · simp only [List.takeWhile_cons, decide_eq_false hx, Bool.false_eq_true, if_false]
      simp [loopSample, hx]

/-- Claim C4: every sampler entry point (cartesian, parametric, polar) skips
invalid samples without aborting: the output equals filtering the per-step
body over the walked grid, every emitted point arises from a valid evaluation
at its own step (the final three conjuncts unfold what the body accepts:
non-null finite results only), and an all-invalid pass yields `[]`. -/
theorem samplers_skip_invalid :
    (∀ (engine : Engine) (func : FunctionExpression) (rng : SampleRange) (vars : Scope),
      evaluateFunction engine func rng vars =
        (sampleGrid rng).filterMap (cartesianBody engine func vars) ∧
      (∀ p ∈ evaluateFunction engine func rng vars,
        ∃ x ∈ sampleGrid rng, cartesianBody engine func vars x = some p) ∧
      ((∀ x ∈ sampleGrid rng, cartesianBody engine func vars x = none) →
        evaluateFunction engine func rng vars = [])) ∧
    (∀ (engine : Engine) (xe ye param : String) (rng : SampleRange) (vars : Scope),
      evaluateParametricFunction engine xe ye param rng vars =
        (sampleGrid rng).filterMap (parametricBody engine xe ye param vars) ∧
      (∀ p ∈ evaluateParametricFunction engine xe ye param rng vars,
        ∃ t ∈ sampleGrid rng, parametricBody engine xe ye param vars t = some p) ∧
      ((∀ t ∈ sampleGrid rng, parametricBody engine xe ye param vars t = none) →
        evaluateParametricFunction engine xe ye param rng vars = [])) ∧
    (∀ (cosF sinF : ℚ → JsNum) (engine : Engine) (rexp : String) (rng : SampleRange)
        (vars : Scope),
      evaluatePolarFunction cosF sinF engine rexp rng vars =
        (sampleGrid rng).filterMap (polarBody cosF sinF engine rexp vars) ∧
      (∀ p ∈ evaluatePolarFunction cosF sinF engine rexp rng vars,
        ∃ θ ∈ sampleGrid rng, polarBody cosF sinF engine rexp vars θ = some p) ∧
      ((∀ θ ∈ sampleGrid rng, polarBody cosF sinF engine rexp vars θ = none) →
        evaluatePolarFunction cosF sinF engine rexp rng vars = [])) ∧
    (∀ (engine : Engine) (func : FunctionExpression) (vars : Scope) (x : ℚ) (p : PointQ),
      cartesianBody engine func vars x = some p →
        p.x = x ∧ (safeEvaluate engine func.expression (vars ++ [("x", x)])).result =
          some (JsNum.fin p.y)) ∧
    (∀ (engine : Engine) (xe ye param : String) (vars : Scope) (t : ℚ) (p : PointQ),
      parametricBody engine xe ye param vars t = some p →
        (safeEvaluate engine xe (vars ++ [(param, t)])).result = some (JsNum.fin p.x) ∧
        (safeEvaluate engine ye (vars ++ [(param, t)])).result = some (JsNum.fin p.y)) ∧
    (∀ (cosF sinF : ℚ → JsNum) (engine : Engine) (rexp : String) (vars : Scope) (θ : ℚ)
        (p : PointQ),
      polarBody cosF sinF engine rexp vars θ = some p →
        ∃ r : ℚ, (safeEvaluate engine rexp (vars ++ [("theta", θ), ("t", θ)])).result =
            some (JsNum.fin r) ∧
          JsNum.mul (.fin r) (cosF θ) = .fin p.x ∧ JsNum.mul (.fin r) (sinF θ) = .fin p.y) := by
  have hmain : ∀ (body : ℚ → Option PointQ) (rng : SampleRange),
      loopSample body rng.max rng.step rng.min (iterFuel rng.min rng.max rng.step) =
        (sampleGrid rng).filterMap body ∧
      (∀ p ∈ loopSample body rng.max rng.step rng.min (iterFuel rng.min rng.max rng.step),
        ∃ x ∈ sampleGrid rng, body x = some p) ∧
      ((∀ x ∈ sampleGrid rng, body x = none) →
        loopSample body rng.max rng.step rng.min (iterFuel rng.min rng.max rng.step) = []) := by
    intro body rng
    have heq := loopSample_eq body rng.max rng.step (iterFuel rng.min rng.max rng.step) rng.min
    refine ⟨heq, ?_, ?_⟩
    · intro p hp
      rw [heq] at hp
      exact List.mem_filterMap.mp hp
    · intro hall
      rw [heq]
      exact List.filterMap_eq_nil_iff.mpr hall
  refine ⟨?_, ?_, ?_, ?_, ?_, ?_⟩
  · intro engine func rng vars
    exact hmain (cartesianBody engine func vars) rng
  · intro engine xe ye param rng vars
    exact hmain (parametricBody engine xe ye param vars) rng
  · intro cosF sinF engine rexp rng vars
    exact hmain (polarBody cosF sinF engine rexp vars) rng
  · intro engine func vars x p hp
    simp only [cartesianBody] at hp
    cases hres : (safeEvaluate engine func.expression (vars ++ [("x", x)])).result with
    | none => simp [hres] at hp
    | some v =>
      cases v with
      | fin y =>
        simp only [hres] at hp
        have hpe : (⟨x, y⟩ : PointQ) = p := by simpa using hp
        subst hpe
        exact ⟨rfl, rfl⟩
      | nan => simp [hres] at hp
      | inf => simp [hres] at hp
      | ninf => simp [hres] at hp
  · intro engine xe ye param vars t p hp
    simp only [parametricBody] at hp
    cases hx : (safeEvaluate engine xe (vars ++ [(param, t)])).result with
    | none => simp [hx] at hp
    | some vx =>
      cases hy : (safeEvaluate engine ye (vars ++ [(param, t)])).result with
      | none => cases vx <;> simp [hx, hy] at hp
      | some vy =>
        cases vx with
        | fin xv =>
          cases vy with
          | fin yv =>
            simp only [hx, hy] at hp
            have hpe : (⟨xv, yv⟩ : PointQ) = p := by simpa using hp
            subst hpe
            exact ⟨rfl, rfl⟩
          | nan => simp [hx, hy] at hp
          | inf => simp [hx, hy] at hp
          | ninf => simp [hx, hy] at hp
        | nan => simp [hx, hy] at hp
        | inf => simp [hx, hy] at hp
        | ninf => simp [hx, hy] at hp
  · intro cosF sinF engine rexp vars θ p hp
    simp only [polarBody] at hp
    cases hres : (safeEvaluate engine rexp (vars ++ [("theta", θ), ("t", θ)])).result with
    | none => simp [hres] at hp
    | some v =>
      cases v with
      | fin r =>
        refine ⟨r, rfl, ?_⟩
        cases hcx : JsNum.mul (.fin r) (cosF θ) with
        | fin xv =>
          cases hcy : JsNum.mul (.fin r) (sinF θ) with
          | fin yv =>
            simp only [hres, hcx, hcy] at hp
            have hpe : (⟨xv, yv⟩ : PointQ) = p := by simpa using hp
            subst hpe
            exact ⟨rfl, rfl⟩
          | nan => simp [hres, hcx, hcy] at hp
          | inf => simp [hres, hcx, hcy] at hp
          | ninf => simp [hres, hcx, hcy] at hp
        | nan => simp [hres, hcx] at hp
        | inf => simp [hres, hcx] at hp
        | ninf => simp [hres, hcx] at hp
      | nan => simp [hres] at hp
      | inf => simp [hres] at hp
      | ninf => simp [hres] at hp

/-- Claim C4 (witness): a concrete pass in which every sample is invalid
returns the empty sequence. -/
theorem samplers_skip_invalid_witness :
    evaluateFunction allBadEngine ⟨"x"⟩ ⟨0, 1, 1⟩ [] = [] := by
  apply (samplers_skip_invalid.1 allBadEngine ⟨"x"⟩ ⟨0, 1, 1⟩ []).2.2
  intro x hx
  rfl

/-- Helper: the accumulation loop on an all-finite index list is the finite
sum `acc + mult * sum`. -/
theorem integralLoop_all_fin (engine : Engine) (expr : String) (vars : Scope) (a h mult : ℚ)
    (y : ℕ → ℚ) :
    ∀ (l : List ℕ) (q : ℚ),
      (∀ i ∈ l, (safeEvaluate engine expr (xScope vars (a + (i : ℚ) * h))).result =
        some (JsNum.fin (y i))) →
      integralLoop engine expr vars a h mult l (JsNum.fin q) =
        some (JsNum.fin (q + mult * (l.map y).sum)) := by
  intro l
  induction l with
  | nil => intro q _; simp [integralLoop]
  | cons i rest ih =>
    intro q hall
    have hi := hall i (by simp)
    simp only [integralLoop, hi]
    have hstep : (JsNum.fin q).add ((JsNum.fin mult).mul (JsNum.fin (y i))) =
        JsNum.fin (q + mult * y i) := rfl
    rw [hstep, ih (q + mult * y i) (fun j hj => hall j (by simp [hj]))]
    congr 1
    rw [List.map_cons, List.sum_cons]
    ring_nf

/-- Helper: the accumulation loop returns `null` as soon as any listed index
has a null sample. -/
theorem integralLoop_none (engine : Engine) (expr : String) (vars : Scope) (a h mult : ℚ) :
    ∀ (l : List ℕ) (s : JsNum) (i : ℕ), i ∈ l →
      (safeEvaluate engine expr (xScope vars (a + (i : ℚ) * h))).result = none →
      integralLoop engine expr vars a h mult l s = none := by
  intro l
  induction l with
  | nil => intro s i hmem; simp at hmem
  | cons j rest ih =>
    intro s i hmem hnone
    rcases List.mem_cons.mp hmem with rfl | hmem'
    · simp [integralLoop, hnone]
    · cases hj : (safeEvaluate engine expr (xScope vars (a + (j : ℚ) * h))).result with
      | none => simp [integralLoop, hj]
      | some v =>
        simp only [integralLoop, hj]
        exact ih _ i hmem' hnone

/-- Helper: the odd-index loop visits exactly `1, 3, ..., n-1` for even `n`. -/
theorem oddIndices_two_mul (m : ℕ) :
    oddIndices (2 * m) = (List.range m).map (fun k => 2 * k + 1) := by
  induction m with
  | zero => rfl
  | succ k ih =>
    have h2 : 2 * (k + 1) = (2 * k + 1) + 1 := by ring
    have e1 : (2 * k) % 2 = 0 := by omega
    have e2 : (2 * k + 1) % 2 = 1 := by omega
    simp only [oddIndices] at ih ⊢
    rw [h2, List.range_succ, List.filter_append, List.range_succ, List.filter_append, ih,
      List.range_succ, List.map_append]
    simp [e1, e2]

/-- Helper: the even-interior loop visits exactly `2, 4, ..., n-2` for even
`n`. -/
theorem evenInteriorIndices_two_mul (m : ℕ) :
    evenInteriorIndices (2 * m) = (List.range (m - 1)).map (fun k => 2 * k + 2) := by
  induction m with
  | zero => rfl
  | succ k ih =>
    rcases Nat.eq_zero_or_pos k with rfl | hk
    · rfl
    · have h2 : 2 * (k + 1) = (2 * k + 1) + 1 := by ring
      have e1 : (2 * k) % 2 = 0 ∧ 2 * k ≠ 0 := ⟨by omega, by omega⟩
      have e2 : (2 * k + 1) % 2 = 1 := by omega
      simp only [evenInteriorIndices] at ih ⊢
      rw [h2, List.range_succ, List.filter_append, List.range_succ, List.filter_append, ih]
      have hkk : k = (k - 1) + 1 := by omega
      rw [show k + 1 - 1 = (k - 1) + 1 from by omega, List.range_succ, List.map_append]
      have hfk : 2 * (k - 1) + 2 = 2 * k := by omega
      simp [e1.1, e1.2, e2, hfk]

/-- Helper: list sum over `range` as a `Finset.range` sum. -/
theorem sum_map_range (m : ℕ) (g : ℕ → ℚ) :
    ((List.range m).map g).sum = ∑ k ∈ Finset.range m, g k := by
  induction m with
  | zero => simp
  | succ k ih =>
    rw [List.range_succ, List.map_append, List.sum_append, Finset.sum_range_succ, ih]
    simp

/-- Claim C5 (amended): `numericalIntegral` forces `n` even (an odd `n`
computes exactly as `n + 1`); when every required sample (all grid nodes
`0..n`) evaluates to a non-null finite value it returns the composite
Simpson's-rule value `(h/3)(f(a) + f(b) + 4*sum odd + 2*sum even interior)`
with `h = (b-a)/n`; and it returns `null` whenever some required sample has a
null result.  (A required sample that is non-null but non-finite — reachable
only through the complex-truncation path — is summed, not turned into
`null`; see the counterexample.) -/
theorem numericalIntegral_amended :
    (∀ (engine : Engine) (expr : String) (a b : ℚ) (n : ℕ) (vars : Scope),
      n % 2 = 1 → numericalIntegral engine expr a b n vars =
        numericalIntegral engine expr a b (n + 1) vars) ∧
    (∀ (engine : Engine) (expr : String) (a b : ℚ) (n : ℕ) (vars : Scope) (y : ℕ → ℚ),
      0 < n →
      (∀ i ≤ forcedEven n, (safeEvaluate engine expr
          (xScope vars (a + (i : ℚ) * ((b - a) / (forcedEven n : ℚ))))).result =
        some (JsNum.fin (y i))) →
      numericalIntegral engine expr a b n vars =
        some (JsNum.fin (simpsonValue a b (forcedEven n) y))) ∧
    (∀ (engine : Engine) (expr : String) (a b : ℚ) (n : ℕ) (vars : Scope) (i : ℕ),
      0 < n → i ≤ forcedEven n →
      (safeEvaluate engine expr
          (xScope vars (a + (i : ℚ) * ((b - a) / (forcedEven n : ℚ))))).result = none →
      numericalIntegral engine expr a b n vars = none) := by
  refine ⟨?_, ?_, ?_⟩
  · intro engine expr a b n vars hodd
    have hfe : forcedEven n = forcedEven (n + 1) := by
      unfold forcedEven
      rw [if_pos (by omega), if_neg (by omega)]
    simp only [numericalIntegral, hfe]
  · intro engine expr a b n vars y hn hall
    have hpos : 0 < forcedEven n := by unfold forcedEven; split <;> omega
    have hev : forcedEven n % 2 = 0 := by unfold forcedEven; split <;> omega
    obtain ⟨m, hm⟩ : ∃ m, forcedEven n = 2 * m := ⟨forcedEven n / 2, by omega⟩
    have hfa : (safeEvaluate engine expr (xScope vars a)).result = some (JsNum.fin (y 0)) := by
      have h0 := hall 0 (Nat.zero_le _)
      simpa using h0
    have hfb : (safeEvaluate engine expr (xScope vars b)).result =
        some (JsNum.fin (y (forcedEven n))) := by
      have hb : a + ((forcedEven n : ℕ) : ℚ) * ((b - a) / ((forcedEven n : ℕ) : ℚ)) = b := by
        have : ((forcedEven n : ℕ) : ℚ) ≠ 0 := Nat.cast_ne_zero.mpr (by omega)
        field_simp
      have hN := hall (forcedEven n) le_rfl
      rw [hb] at hN
      exact hN
    have hoddmem : ∀ i ∈ oddIndices (forcedEven n),
        (safeEvaluate engine expr
          (xScope vars (a + (i : ℚ) * ((b - a) / (forcedEven n : ℚ))))).result =
        some (JsNum.fin (y i)) := by
      intro i hi
      refine hall i ?_
      have := List.mem_range.mp (List.mem_filter.mp hi).1
      omega
    have hevenmem : ∀ i ∈ evenInteriorIndices (forcedEven n),
        (safeEvaluate engine expr
          (xScope vars (a + (i : ℚ) * ((b - a) / (forcedEven n : ℚ))))).result =
        some (JsNum.fin (y i)) := by
      intro i hi
      refine hall i ?_
      have := List.mem_range.mp (List.mem_filter.mp hi).1
      omega
    have hsum0 : (JsNum.fin 0).add ((JsNum.fin (y 0)).add (JsNum.fin (y (forcedEven n)))) =
        JsNum.fin (0 + (y 0 + y (forcedEven n))) := rfl
    have hL1 := integralLoop_all_fin engine expr vars a ((b - a) / (forcedEven n : ℚ)) 4 y
      (oddIndices (forcedEven n)) (0 + (y 0 + y (forcedEven n))) hoddmem
    have hL2 := integralLoop_all_fin engine expr vars a ((b - a) / (forcedEven n : ℚ)) 2 y
      (evenInteriorIndices (forcedEven n))
      ((0 + (y 0 + y (forcedEven n))) + 4 * ((oddIndices (forcedEven n)).map y).sum) hevenmem
    simp only [numericalIntegral, hfa, hfb, hsum0, hL1, hL2]
    congr 1
    have hmul : (JsNum.fin ((b - a) / ((forcedEven n : ℕ) : ℚ) / 3)).mul
        (JsNum.fin ((0 + (y 0 + y (forcedEven n))) + 4 * ((oddIndices (forcedEven n)).map y).sum
          + 2 * ((evenInteriorIndices (forcedEven n)).map y).sum)) =
        JsNum.fin ((b - a) / ((forcedEven n : ℕ) : ℚ) / 3 *
          ((0 + (y 0 + y (forcedEven n))) + 4 * ((oddIndices (forcedEven n)).map y).sum
            + 2 * ((evenInteriorIndices (forcedEven n)).map y).sum)) := rfl
    rw [hmul]
    have hso : ((oddIndices (forcedEven n)).map y).sum =
        ∑ k ∈ Finset.range (forcedEven n / 2), y (2 * k + 1) := by
      rw [hm, oddIndices_two_mul, List.map_map, sum_map_range]
      have : 2 * m / 2 = m := by omega
      rw [this]
      simp [Function.comp]
    have hse : ((evenInteriorIndices (forcedEven n)).map y).sum =
        ∑ k ∈ Finset.range (forcedEven n / 2 - 1), y (2 * k + 2) := by
      rw [hm, evenInteriorIndices_two_mul, List.map_map, sum_map_range]
      have : 2 * m / 2 = m := by omega
      rw [this]
      simp [Function.comp]
    rw [hso, hse]
    unfold simpsonValue
    ring_nf
  · intro engine expr a b n vars i hn hile hnone
    have hpos : 0 < forcedEven n := by unfold forcedEven; split <;> omega
    have hev : forcedEven n % 2 = 0 := by unfold forcedEven; split <;> omega
    by_cases hi0 : i = 0
    · subst hi0
      have hnone0 : (safeEvaluate engine expr (xScope vars a)).result = none := by
        simpa using hnone
      simp [numericalIntegral, hnone0]
    · by_cases hin : i = forcedEven n
      · subst hin
        have hb : a + ((forcedEven n : ℕ) : ℚ) * ((b - a) / ((forcedEven n : ℕ) : ℚ)) = b := by
          have : ((forcedEven n : ℕ) : ℚ) ≠ 0 := Nat.cast_ne_zero.mpr (by omega)
          field_simp
        rw [hb] at hnone
        cases hfa : (safeEvaluate engine expr (xScope vars a)).result with
        | none => simp [numericalIntegral, hfa]
        | some fa => simp [numericalIntegral, hfa, hnone]
      · have hilt : i < forcedEven n := by omega
        cases hfa : (safeEvaluate engine expr (xScope vars a)).result with
        | none => simp [numericalIntegral, hfa]
        | some fa =>
          cases hfb : (safeEvaluate engine expr (xScope vars b)).result with
          | none => simp [numericalIntegral, hfa, hfb]
          | some fb =>
            by_cases hpar : i % 2 = 1
            · have hmem : i ∈ oddIndices (forcedEven n) := by
                simp [oddIndices, List.mem_filter, List.mem_range, hilt, hpar]
              have hloop := integralLoop_none engine expr vars a
                ((b - a) / (forcedEven n : ℚ)) 4 (oddIndices (forcedEven n))
                ((JsNum.fin 0).add (fa.add fb)) i hmem hnone
              simp [numericalIntegral, hfa, hfb, hloop]
            · have hpar' : i % 2 = 0 := by omega
              have hmem : i ∈ evenInteriorIndices (forcedEven n) := by
                simp [evenInteriorIndices, List.mem_filter, List.mem_range, hilt, hpar', hi0]
              cases hodd : integralLoop engine expr vars a
                  ((b - a) / (forcedEven n : ℚ)) 4 (oddIndices (forcedEven n))
                  ((JsNum.fin 0).add (fa.add fb)) with
              | none => simp [numericalIntegral, hfa, hfb, hodd]
              | some s1 =>
                have hloop := integralLoop_none engine expr vars a
                  ((b - a) / (forcedEven n : ℚ)) 2 (evenInteriorIndices (forcedEven n))
                  s1 i hmem hnone
                simp [numericalIntegral, hfa, hfb, hodd, hloop]

/-- Claim C5 (counterexample): with an engine whose every sample is the
non-finite value `Infinity` (via the unchecked complex-truncation path of
`safeEvaluate`), every required sample of `numericalIntegral` over `[0,2]`
with `n = 2` is invalid, yet the integral returns `Infinity` instead of the
claimed `null`. -/
theorem numericalIntegral_invalid_sample_cex :
    numericalIntegral ce5engine "f" 0 2 2 [] = some JsNum.inf ∧
    (safeEvaluate ce5engine "f" (xScope [] 0)).result = some JsNum.inf ∧
    JsNum.isFinite JsNum.inf = false := by
  refine ⟨?_, rfl, rfl⟩
  have hstep : numericalIntegral ce5engine "f" 0 2 2 [] =
      some ((JsNum.fin (((2 : ℚ) - 0) / ((forcedEven 2 : ℕ) : ℚ) / 3)).mul JsNum.inf) := rfl
  rw [hstep]
  have hpos : (0 : ℚ) < ((2 : ℚ) - 0) / ((forcedEven 2 : ℕ) : ℚ) / 3 := by
    have : forcedEven 2 = 2 := by decide
    rw [this]
    norm_num
  have hmul : (JsNum.fin (((2 : ℚ) - 0) / ((forcedEven 2 : ℕ) : ℚ) / 3)).mul JsNum.inf =
      JsNum.inf := by
    simp only [JsNum.mul]
    rw [if_pos hpos]
  rw [hmul]

/-- Claim C5 (amended, witness): a concrete all-valid integration returns the
Simpson value. -/
theorem numericalIntegral_amended_witness :
    numericalIntegral constOneEngine "1" 0 2 2 [] =
      some (JsNum.fin (simpsonValue 0 2 (forcedEven 2) (fun _ => 1))) :=
  numericalIntegral_amended.2.1 constOneEngine "1" 0 2 2 [] (fun _ => 1) (by norm_num)
    (fun i _ => rfl)

/-- Helper: a dataset-wide constant summand sums to `length * constant`. -/
theorem sumBy_const (data : List PointQ) (f : PointQ → ℚ) (k : ℚ)
    (hf : ∀ p ∈ data, f p = k) : sumBy data f = data.length * k := by
  induction data with
  | nil => simp [sumBy]
  | cons p rest ih =>
    have hrest := ih (fun q hq => hf q (by simp [hq]))
    simp only [sumBy, List.map_cons, List.sum_cons, List.length_cons] at *
    rw [hf p (by simp), hrest]
    push_cast
    ring

/-- Claim C6 (counterexample): three collinear points with distinct
x-coordinates (on `y = x`) give a normal-equations determinant of 4, far from
the `1e-10` singularity bound, and the quadratic fit succeeds instead of
raising the claimed singular-matrix error — collinearity of the points does
not make the x-moment matrix singular. -/
theorem quadraticRegression_collinear_cex :
    (∀ p ∈ quadCollinearData, p.y = p.x) ∧
    quadCollinearData.length = 3 ∧
    quadDet quadCollinearData = 4 ∧
    isOkE (quadraticRegression quadCollinearData) = true := by
  have hdet : quadDet quadCollinearData = 4 := by
    norm_num [quadDet, sumBy, quadCollinearData]
  refine ⟨by decide, rfl, hdet, ?_⟩
  unfold quadraticRegression
  rw [if_neg (by decide), hdet, if_neg (by norm_num)]
  rfl

/-- Claim C6 (amended): the determinant depends only on the x-coordinates,
so collinearity of the points does not by itself trigger the singular-matrix
error (counterexample above, det = 4); what does is degeneracy of the
x-values — in particular, whenever all points share one x-coordinate the
determinant is exactly 0 and `quadraticRegression` raises the
singular-matrix error. -/
theorem quadraticRegression_singular_on_constant_x :
    ∀ (data : List PointQ) (c : ℚ), 3 ≤ data.length → (∀ p ∈ data, p.x = c) →
      quadraticRegression data =
        .error "Cannot solve quadratic regression - singular matrix" := by
  intro data c h3 hall
  have h1 : sumBy data (fun p => p.x) = data.length * c :=
    sumBy_const _ _ _ (fun p hp => hall p hp)
  have h2 : sumBy data (fun p => p.x * p.x) = data.length * (c * c) :=
    sumBy_const _ _ _ (fun p hp => by rw [hall p hp])
  have h3x : sumBy data (fun p => p.x * p.x * p.x) = data.length * (c * c * c) :=
    sumBy_const _ _ _ (fun p hp => by rw [hall p hp])
  have h4 : sumBy data (fun p => (p.x * p.x) * (p.x * p.x)) =
      data.length * ((c * c) * (c * c)) :=
    sumBy_const _ _ _ (fun p hp => by rw [hall p hp])
  have hdet : quadDet data = 0 := by
    unfold quadDet
    rw [h1, h2, h3x, h4]
    ring
  unfold quadraticRegression
  rw [if_neg (by omega), hdet]
  norm_num

/-- Claim C6 (amended, witness): three points sharing `x = 1` raise the
singular-matrix error. -/
theorem quadraticRegression_singular_witness :
    quadraticRegression constXData =
      .error "Cannot solve quadratic regression - singular matrix" :=
  quadraticRegression_singular_on_constant_x constXData 1 (by decide) (by decide)

/-- Claim C7 (counterexample): with degree 3 and a 3-point dataset (at least
2 points), `polynomialRegression` raises its `degree + 1` precondition error
instead of falling back to linear regression, so it does not return the same
result as `linearRegression`. -/
theorem polynomialRegression_fallback_cex :
    isOkE (polynomialRegression d3Points 3) = false ∧
    isOkE (linearRegression d3Points) = true ∧
    polynomialRegression d3Points 3 ≠ linearRegression d3Points := by
  have hpo : isOkE (polynomialRegression d3Points 3) = false := by
    unfold polynomialRegression
    rw [if_pos (by decide)]
    rfl
  have hli : isOkE (linearRegression d3Points) = true := by
    unfold linearRegression
    rw [if_neg (by decide)]
    rfl
  refine ⟨hpo, hli, ?_⟩
  intro heq
  rw [heq, hli] at hpo
  simp at hpo

/-- Claim C7 (amended): for any degree other than 2, `polynomialRegression`
falls back to `linearRegression` exactly when the dataset has at least
`degree + 1` points (fewer raise the precondition error); degree 2 with at
least 3 points takes the quadratic path. -/
theorem polynomialRegression_fallback_amended :
    (∀ (data : List PointQ) (degree : ℕ), degree ≠ 2 → degree + 1 ≤ data.length →
      polynomialRegression data degree = linearRegression data) ∧
    (∀ data : List PointQ, 3 ≤ data.length →
      polynomialRegression data 2 = quadraticRegression data) := by
  constructor
  · intro data degree hd hlen
    unfold polynomialRegression
    rw [if_neg (by omega), if_neg hd]
  · intro data hlen
    unfold polynomialRegression
    rw [if_neg (by omega), if_pos rfl]

/-- Claim C7 (amended, witness): degree 3 on a 4-point dataset falls back to
linear regression. -/
theorem polynomialRegression_fallback_witness :
    polynomialRegression d4Points 3 = linearRegression d4Points :=
  polynomialRegression_fallback_amended.1 d4Points 3 (by decide) (by decide)

/-- Helper: cancelling a shared final element of a sublist pair. -/
theorem sublist_concat_cancel {α : Type} :
    ∀ (m l : List α) (a : α), List.Sublist (l ++ [a]) (m ++ [a]) → List.Sublist l m := by
  intro m
  induction m with
  | nil =>
    intro l a h
    have hlen := h.length_le
    simp only [List.length_append, List.length_cons, List.length_nil, List.nil_append] at hlen
    have : l = [] := List.eq_nil_of_length_eq_zero (by omega)
    subst this
    exact List.Sublist.refl []
  | cons b m' ih =>
    intro l a h
    cases l with
    | nil => exact List.nil_sublist _
    | cons c l' =>
      rw [List.cons_append] at h
      cases h with
      | cons _ h' =>
        exact (ih (c :: l') a h').cons b
      | cons₂ _ h' =>
        exact (ih l' a h').cons₂ b

/-- Helper: `dpAux` fixes singleton lists. -/
theorem dpAux_singleton (fuel : ℕ) (p : Point2D) (tol : ℝ) : dpAux fuel [p] tol = [p] := by
  cases fuel with
  | zero => rfl
  | succ n => simp [dpAux]

/-- Helper: `head?` survives `dropLast` on lists of length at least 2. -/
theorem head?_dropLast {α : Type} (l : List α) (h : 2 ≤ l.length) :
    l.dropLast.head? = l.head? := by
  cases l with
  | nil => simp at h
  | cons a t =>
    cases t with
    | nil => simp at h
    | cons b t' => simp [List.dropLast]

/-- Helper: `head?` of a prefix. -/
theorem head?_take {α : Type} (l : List α) (n : ℕ) (h : 0 < n) :
    (l.take n).head? = l.head? := by
  cases l with
  | nil => simp
  | cons a t =>
    cases n with
    | zero => omega
    | succ m => simp

/-- Helper: `getLast?` of a suffix. -/
theorem getLast?_drop {α : Type} :
    ∀ (l : List α) (k : ℕ), k < l.length → (l.drop k).getLast? = l.getLast? := by
  intro l
  induction l with
  | nil => intro k h; simp at h
  | cons a t ih =>
    intro k h
    cases k with
    | zero => simp
    | succ m =>
      have hm : m < t.length := by simpa using h
      rw [List.drop_succ_cons, ih m hm]
      cases t with
      | nil => simp at hm
      | cons b t' => simp [List.getLast?_cons_cons]

/-- Helper: the interior index selected by the max-distance scan is 0 or a
genuine interior index. -/
theorem dpScan_snd (points : List Point2D) (fp lp : Point2D) :
    (dpScan points fp lp).2 = 0 ∨
      (1 ≤ (dpScan points fp lp).2 ∧ (dpScan points fp lp).2 + 1 < points.length) := by
  have key : ∀ (l : List ℕ) (acc : ℝ × ℕ),
      (∀ i ∈ l, 1 ≤ i ∧ i + 1 < points.length) →
      (acc.2 = 0 ∨ (1 ≤ acc.2 ∧ acc.2 + 1 < points.length)) →
      ((l.foldl (fun acc i =>
          let d := distanceToLine (points.getD i dummyPoint) fp lp
          if acc.1 < d then (d, i) else acc) acc).2 = 0 ∨
        (1 ≤ (l.foldl (fun acc i =>
          let d := distanceToLine (points.getD i dummyPoint) fp lp
          if acc.1 < d then (d, i) else acc) acc).2 ∧
         (l.foldl (fun acc i =>
          let d := distanceToLine (points.getD i dummyPoint) fp lp
          if acc.1 < d then (d, i) else acc) acc).2 + 1 < points.length)) := by
    intro l
    induction l with
    | nil => intro acc _ hacc; exact hacc
    | cons j rest ih =>
      intro acc hall hacc
      rw [List.foldl_cons]
      refine ih _ (fun i hi => hall i (by simp [hi])) ?_
      dsimp only
      by_cases hd : acc.1 < distanceToLine (points.getD j dummyPoint) fp lp
      · rw [if_pos hd]
        exact Or.inr (hall j (by simp))
      · rw [if_neg hd]
        exact hacc
  unfold dpScan
  refine key _ _ ?_ (Or.inl rfl)
  intro i hi
  have := List.mem_range'_1.mp hi
  omega

/-- Helper: `getD` at index `length - 1` is `getLast`. -/
theorem getD_length_sub_one {α : Type} (d : α) :
    ∀ (l : List α) (h : l ≠ []), l.getD (l.length - 1) d = l.getLast h := by
  intro l
  induction l with
  | nil => intro h; simp at h
  | cons a t ih =>
    intro h
    cases t with
    | nil => rfl
    | cons b t' =>
      have hidx : (a :: b :: t').length - 1 = t'.length + 1 := by simp
      rw [hidx, List.getD_cons_succ, List.getLast_cons (by simp : b :: t' ≠ [])]
      have := ih (by simp : b :: t' ≠ [])
      simpa using this

/-- Helper: `getD 0` is the head. -/
theorem getD_zero_eq_head {α : Type} (d : α) (l : List α) (h : l ≠ []) :
    l.getD 0 d = l.head h := by
  cases l with
  | nil => simp at h
  | cons a t => rfl

/-- Helper: the two endpoints form a subsequence. -/
theorem head_getLast_sublist {α : Type} (l : List α) (h : l ≠ []) (h2 : 2 ≤ l.length) :
    List.Sublist [l.head h, l.getLast h] l := by
  cases l with
  | nil => simp at h
  | cons a t =>
    cases t with
    | nil => simp at h2
    | cons b t' =>
      rw [List.head_cons, List.getLast_cons (by simp : b :: t' ≠ [])]
      exact List.Sublist.cons₂ a
        (List.singleton_sublist.mpr (List.getLast_mem (by simp : b :: t' ≠ [])))

/-- Helper: head of an append with nonempty left part. -/
theorem head?_append_left {α : Type} (l l' : List α) (h : l ≠ []) :
    (l ++ l').head? = l.head? := by
  cases l with
  | nil => simp at h
  | cons a t => rfl

/-- Helper: a nonempty prefix keeps the head as a singleton `take`. -/
theorem take_one_eq (l : List Point2D) (h : l ≠ []) :
    l.take 1 = [l.getD 0 dummyPoint] := by
  cases l with
  | nil => simp at h
  | cons a t => rfl

/-- Main structural invariant of the Douglas-Peucker recursion: for every
fuel, the result is an order-preserving subsequence of the input that keeps
the first and last points, and has at least two points whenever the input
does. -/
theorem dpAux_spec : ∀ (fuel : ℕ) (points : List Point2D) (tol : ℝ),
    List.Sublist (dpAux fuel points tol) points ∧
    (dpAux fuel points tol).head? = points.head? ∧
    (dpAux fuel points tol).getLast? = points.getLast? ∧
    (2 ≤ points.length → 2 ≤ (dpAux fuel points tol).length) := by
  intro fuel
  induction fuel with
  | zero => intro points tol; exact ⟨List.Sublist.refl _, rfl, rfl, fun h => h⟩
  | succ n ih =>
    intro points tol
    by_cases hlen : points.length ≤ 2
    · simp only [dpAux, if_pos hlen]
      exact ⟨List.Sublist.refl _, by simp, by simp, fun h => h⟩
    · have hlen3 : 3 ≤ points.length := by omega
      have hne : points ≠ [] := by
        intro h
        rw [h] at hlen3
        simp at hlen3
      simp only [dpAux, if_neg hlen]
      by_cases htol : tol < (dpScan points (points.getD 0 dummyPoint)
          (points.getD (points.length - 1) dummyPoint)).1
      · rw [if_pos htol]
        rcases dpScan_snd points (points.getD 0 dummyPoint)
            (points.getD (points.length - 1) dummyPoint) with hk0 | ⟨hk1, hk2⟩
        · rw [hk0, List.drop_zero, take_one_eq points hne, dpAux_singleton]
          simp only [List.dropLast_single, List.nil_append]
          exact ih points tol
        · obtain ⟨k, hkeq⟩ : ∃ k, (dpScan points (points.getD 0 dummyPoint)
              (points.getD (points.length - 1) dummyPoint)).2 = k := ⟨_, rfl⟩
          rw [hkeq] at hk1 hk2 ⊢
          have hklen : k < points.length := by omega
          have hpk := List.getElem?_eq_getElem hklen
          have htake : points.take (k + 1) = points.take k ++ [points[k]] := by
            rw [List.take_succ, hpk]
            rfl
          have specL := ih (points.take (k + 1)) tol
          have specR := ih (points.drop k) tol
          have lenL : (points.take (k + 1)).length = k + 1 := by
            rw [List.length_take]
            omega
          have lenR : (points.drop k).length = points.length - k := List.length_drop k points
          have hL2 : 2 ≤ (dpAux n (points.take (k + 1)) tol).length :=
            specL.2.2.2 (by omega)
          have hR2 : 2 ≤ (dpAux n (points.drop k) tol).length :=
            specR.2.2.2 (by omega)
          have hRne : dpAux n (points.drop k) tol ≠ [] := by
            intro h
            rw [h] at hR2
            simp at hR2
          have hdlne : (dpAux n (points.take (k + 1)) tol).dropLast ≠ [] := by
            intro h
            have := congrArg List.length h
            rw [List.length_dropLast] at this
            simp at this
            omega
          have hlastL : (dpAux n (points.take (k + 1)) tol).getLast? = some points[k] := by
            rw [specL.2.2.1, htake, List.getLast?_concat]
          have hsplit : (dpAux n (points.take (k + 1)) tol).dropLast ++ [points[k]] =
              dpAux n (points.take (k + 1)) tol :=
            List.dropLast_append_getLast? points[k] (by rw [hlastL]; rfl)
          refine ⟨?_, ?_, ?_, ?_⟩
          · have sub1 : List.Sublist ((dpAux n (points.take (k + 1)) tol).dropLast)
                (points.take k) := by
              apply sublist_concat_cancel (points.take k) _ points[k]
              rw [hsplit, ← htake]
              exact specL.1
            have := List.Sublist.append sub1 specR.1
            rwa [List.take_append_drop] at this
          · rw [head?_append_left _ _ hdlne, head?_dropLast _ hL2, specL.2.1,
              head?_take _ _ (by omega)]
          · rw [List.getLast?_append_of_ne_nil _ hRne, specR.2.2.1,
              getLast?_drop points k hklen]
          · intro _
            rw [List.length_append, List.length_dropLast]
            omega
      · rw [if_neg htol]
        rw [getD_zero_eq_head dummyPoint points hne, getD_length_sub_one dummyPoint points hne]
        refine ⟨head_getLast_sublist points hne (by omega), ?_, ?_, fun _ => by simp⟩
        · rw [List.head?_eq_head hne]
          rfl
        · rw [List.getLast?_eq_getLast points hne]
          simp

/-- Claim C10: for every input and tolerance, `simplifyPoints` returns an
order-preserving subsequence of the input whose first and last elements are
the input's first and last points. -/
theorem simplifyPoints_endpoints (points : List Point2D) (tolerance : ℝ)
    (hne : points ≠ []) :
    List.Sublist (simplifyPoints points tolerance) points ∧
    (simplifyPoints points tolerance).head? = points.head? ∧
    (simplifyPoints points tolerance).getLast? = points.getLast? := by
  unfold simplifyPoints
  by_cases h : points.length ≤ 2
  · rw [if_pos h]
    exact ⟨List.Sublist.refl _, rfl, rfl⟩
  · rw [if_neg h]
    unfold douglasPeucker
    have hspec := dpAux_spec points.length points tolerance
    exact ⟨hspec.1, hspec.2.1, hspec.2.2.1⟩

/-- Claim C10 (witness): a concrete instance of the endpoint-preserving
subsequence property. -/
theorem simplifyPoints_endpoints_witness :
    List.Sublist (simplifyPoints c10points (-3)) c10points ∧
    (simplifyPoints c10points (-3)).head? = c10points.head? ∧
    (simplifyPoints c10points (-3)).getLast? = c10points.getLast? :=
  simplifyPoints_endpoints c10points (-3) (by simp [c10points])

/-- Helper: a point lying on the segment from `s` to `e` (a convex
combination) is at `distanceToLine` zero. -/
theorem distanceToLine_on_segment (p s e : Point2D) (t : ℝ) (h0 : 0 ≤ t) (h1 : t ≤ 1)
    (hx : p.x = s.x + t * (e.x - s.x)) (hy : p.y = s.y + t * (e.y - s.y)) :
    distanceToLine p s e = 0 := by
  simp only [distanceToLine]
  by_cases hlen : (e.x - s.x) * (e.x - s.x) + (e.y - s.y) * (e.y - s.y) = 0
  · rw [if_pos hlen]
    have hA : e.x - s.x = 0 ∧ e.y - s.y = 0 := by
      constructor <;> nlinarith [sq_nonneg (e.x - s.x), sq_nonneg (e.y - s.y)]
    have hC : s.x - p.x = 0 := by rw [hx, hA.1]; ring
    have hD : s.y - p.y = 0 := by rw [hy, hA.2]; ring
    rw [hC, hD]
    norm_num
  · rw [if_neg hlen]
    have hparam : -((e.x - s.x) * (s.x - p.x) + (e.y - s.y) * (s.y - p.y)) /
        ((e.x - s.x) * (e.x - s.x) + (e.y - s.y) * (e.y - s.y)) = t := by
      rw [hx, hy]
      field_simp
      ring
    rw [hparam]
    simp only [if_neg (not_lt.mpr h0), if_neg (not_lt.mpr h1)]
    have hdx : p.x - (s.x + t * (e.x - s.x)) = 0 := by rw [hx]; ring
    have hdy : p.y - (s.y + t * (e.y - s.y)) = 0 := by rw [hy]; ring
    rw [hdx, hdy]
    norm_num

/-- Claim C8 (amended): Douglas-Peucker collapses to exactly the two
endpoints whenever every point lies ON the chord segment between the first
and last point (any positive tolerance); and on inputs of at most 2 points
both `douglasPeucker` and `simplifyPoints` return the input unchanged.
(Collinearity alone is not enough: a collinear point lying beyond the chord
has positive distance to it — see the counterexample.) -/
theorem douglasPeucker_collapse :
    (∀ (points : List Point2D) (tolerance : ℝ), 0 < tolerance → 2 ≤ points.length →
      (∀ p ∈ points, ∃ t : ℝ, 0 ≤ t ∧ t ≤ 1 ∧
        p.x = (points.getD 0 dummyPoint).x +
          t * ((points.getD (points.length - 1) dummyPoint).x -
            (points.getD 0 dummyPoint).x) ∧
        p.y = (points.getD 0 dummyPoint).y +
          t * ((points.getD (points.length - 1) dummyPoint).y -
            (points.getD 0 dummyPoint).y)) →
      douglasPeucker points tolerance =
        [points.getD 0 dummyPoint, points.getD (points.length - 1) dummyPoint]) ∧
    (∀ (points : List Point2D) (tolerance : ℝ), points.length ≤ 2 →
      simplifyPoints points tolerance = points ∧
      douglasPeucker points tolerance = points) := by
  constructor
  · intro points tolerance htol hlen2 hall
    by_cases hcase : points.length ≤ 2
    · have hlen : points.length = 2 := by omega
      obtain ⟨a, b, rfl⟩ : ∃ a b, points = [a, b] := by
        cases points with
        | nil => simp at hlen
        | cons a t =>
          cases t with
          | nil => simp at hlen
          | cons b t' =>
            cases t' with
            | nil => exact ⟨a, b, rfl⟩
            | cons c t'' => simp at hlen
      rfl
    · have hscan : (dpScan points (points.getD 0 dummyPoint)
          (points.getD (points.length - 1) dummyPoint)).1 = 0 := by
        have hdist : ∀ i ∈ List.range' 1 (points.length - 2),
            distanceToLine (points.getD i dummyPoint) (points.getD 0 dummyPoint)
              (points.getD (points.length - 1) dummyPoint) = 0 := by
          intro i hi
          have hibound := List.mem_range'_1.mp hi
          have hilt : i < points.length := by omega
          have himem : points.getD i dummyPoint ∈ points := by
            rw [List.getD_eq_getElem?_getD, List.getElem?_eq_getElem hilt]
            exact List.getElem_mem hilt
          obtain ⟨t, ht0, ht1, htx, hty⟩ := hall _ himem
          exact distanceToLine_on_segment _ _ _ t ht0 ht1 htx hty
        have key : ∀ (l : List ℕ),
            (∀ i ∈ l, distanceToLine (points.getD i dummyPoint) (points.getD 0 dummyPoint)
              (points.getD (points.length - 1) dummyPoint) = 0) →
            (l.foldl (fun acc i =>
              let d := distanceToLine (points.getD i dummyPoint) (points.getD 0 dummyPoint)
                (points.getD (points.length - 1) dummyPoint)
              if acc.1 < d then (d, i) else acc) ((0 : ℝ), (0 : ℕ))) = (0, 0) := by
          intro l
          induction l with
          | nil => intro _; rfl
          | cons j rest ih' =>
            intro hz
            rw [List.foldl_cons]
            dsimp only
            rw [hz j (by simp), if_neg (lt_irrefl 0)]
            exact ih' (fun i hi => hz i (by simp [hi]))
        unfold dpScan
        rw [key _ hdist]
      have main : ∀ fuel : ℕ, dpAux (fuel + 1) points tolerance =
          [points.getD 0 dummyPoint, points.getD (points.length - 1) dummyPoint] := by
        intro fuel
        simp only [dpAux, if_neg hcase]
        rw [hscan, if_neg (by linarith)]
      obtain ⟨m, hm⟩ : ∃ m, points.length = m + 1 := ⟨points.length - 1, by omega⟩
      unfold douglasPeucker
      conv_lhs => rw [hm]
      exact main m
  · intro points tolerance hlen
    refine ⟨by unfold simplifyPoints; rw [if_pos hlen], ?_⟩
    unfold douglasPeucker
    cases hfu : points.length with
    | zero => rfl
    | succ m =>
      simp only [dpAux]
      rw [if_pos hlen]

/-- Claim C8 (amended, witness): three increasing collinear points on the
x-axis collapse to the two endpoints at tolerance 1. -/
theorem douglasPeucker_collapse_witness :
    douglasPeucker c8chordPoints 1 =
      [c8chordPoints.getD 0 dummyPoint,
       c8chordPoints.getD (c8chordPoints.length - 1) dummyPoint] :=
  douglasPeucker_collapse.1 c8chordPoints 1 (by norm_num) (by simp [c8chordPoints])
    (by
      intro p hp
      simp only [c8chordPoints, List.mem_cons, List.not_mem_nil, or_false] at hp
      rcases hp with rfl | rfl | rfl
      · exact ⟨0, by norm_num, by norm_num, by norm_num [c8chordPoints],
          by norm_num [c8chordPoints]⟩
      · exact ⟨1/2, by norm_num, by norm_num, by norm_num [c8chordPoints],
          by norm_num [c8chordPoints]⟩
      · exact ⟨1, by norm_num, by norm_num, by norm_num [c8chordPoints],
          by norm_num [c8chordPoints]⟩)

/-- Claim C8 (counterexample): the collinear points `(0,0), (5,0), (1,0)`
(all on the x-axis) are NOT collapsed to 2 points at tolerance 1: the middle
point lies beyond the chord from `(0,0)` to `(1,0)`, its distance to that
segment is 4 > 1, and Douglas-Peucker returns all 3 points. -/
theorem douglasPeucker_collinear_cex :
    douglasPeucker ce8points 1 = ce8points ∧
    (ce8points.getD 0 dummyPoint).y = 0 ∧
    (ce8points.getD 1 dummyPoint).y = 0 ∧
    (ce8points.getD 2 dummyPoint).y = 0 ∧
    ce8points.length = 3 ∧ (0 : ℝ) < 1 := by
  refine ⟨?_, rfl, rfl, rfl, rfl, by norm_num⟩
  have hd : distanceToLine (⟨5, 0⟩ : Point2D) ⟨0, 0⟩ ⟨1, 0⟩ = 4 := by
    simp only [distanceToLine]
    norm_num
    rw [show (16 : ℝ) = 4 ^ 2 from by norm_num]
    exact Real.sqrt_sq (by norm_num)
  have hscan : dpScan ce8points (ce8points.getD 0 dummyPoint)
      (ce8points.getD (ce8points.length - 1) dummyPoint) = (4, 1) := by
    unfold dpScan
    rw [show ce8points.length - 2 = 1 from rfl,
      show List.range' 1 1 = [1] from rfl, List.foldl_cons, List.foldl_nil]
    dsimp only
    rw [show ce8points.getD 1 dummyPoint = ⟨5, 0⟩ from rfl,
      show ce8points.getD 0 dummyPoint = ⟨0, 0⟩ from rfl,
      show ce8points.getD (ce8points.length - 1) dummyPoint = ⟨1, 0⟩ from rfl, hd,
      if_pos (by norm_num : (0 : ℝ) < 4)]
  show douglasPeucker ce8points 1 = ce8points
  unfold douglasPeucker
  rw [show ce8points.length = 2 + 1 from rfl]
  simp only [dpAux]
  rw [if_neg (by decide : ¬ ce8points.length ≤ 2), hscan]
  dsimp only
  rw [if_pos (by norm_num : (1 : ℝ) < 4)]
  rfl
